import Mathlib

/-!
# Verification of the DAILYDATA session dashboard core

A shallow embedding, in Lean 4, of the data-handling core of the two
Streamlit applications in this repository (`data.py` and `student_app.py`),
together with proofs about it.

DataFrames are modelled as a list of column names plus a list of rows,
each row a list of cells; a cell is a raw string, a rational number
(the embedding of a pandas float), or NaN.  Stateful pandas idioms
(`df['c'] = ...`, `inplace=True`) become pure transforms producing new
frames; functions that can raise return `Except String`.
-/

namespace DailyData

/-- A single pandas cell: a raw string, a numeric value, or NaN/NaT. -/
inductive Cell : Type where
  | s : String → Cell
  | q : ℚ → Cell
  | nan : Cell
deriving DecidableEq, Repr

/-- A DataFrame: named columns and rows of cells.  Row `r`'s cell for the
`i`-th column sits at position `i` of `r`. -/
structure DataFrame : Type where
  cols : List String
  rows : List (List Cell)
deriving DecidableEq, Repr

/-- `pd.DataFrame()`, the empty frame. -/
def emptyDF : DataFrame := ⟨[], []⟩

/-- `df.empty`: true when the frame has no rows or no columns. -/
def DataFrame.emptyB (df : DataFrame) : Bool :=
  df.rows.isEmpty || df.cols.isEmpty

/-- Index of the first column with the given name (pandas label lookup). -/
def colIdx (cols : List String) (c : String) : Option ℕ :=
  match cols with
  | [] => none
  | x :: t => if x = c then some 0 else (colIdx t c).map (· + 1)

/-- The cell of row `r` under column `c` of a frame with columns `cols`
(NaN when the column is absent). -/
def cellAt (cols : List String) (r : List Cell) (c : String) : Cell :=
  match colIdx cols c with
  | some i => r.getD i Cell.nan
  | none => Cell.nan

/-! String operations are embedded over `List Char` by structural
recursion, mirroring the Python `str.strip`, `str.lower`, `in`,
`str.startswith` and numeric-literal parsing used by the source. -/

/-- Python `str.strip()` on a character list. -/
def trimChars (cs : List Char) : List Char :=
  ((cs.dropWhile Char.isWhitespace).reverse.dropWhile Char.isWhitespace).reverse

/-- Python `str.strip()`. -/
def strTrim (s : String) : String := ⟨trimChars s.data⟩

/-- Python `str.lower()`. -/
def strLower (s : String) : String := ⟨s.data.map Char.toLower⟩

/-- Split a character list on a separator character. -/
def splitOnChar (sep : Char) : List Char → List (List Char)
  | [] => [[]]
  | c :: rest =>
      let r := splitOnChar sep rest
      if c = sep then [] :: r
      else
        match r with
        | h :: t => (c :: h) :: t
        | [] => [[c]]

/-- Python `needle in hay` substring test. -/
def strContainsSub (hay needle : String) : Bool :=
  (List.range (hay.data.length + 1)).any
    (fun i => needle.data.isPrefixOf (hay.data.drop i))

/-- Parse a non-empty all-digit character list into a natural number. -/
def digitsToNat? (cs : List Char) : Option ℕ :=
  if cs ≠ [] ∧ cs.all (fun c => c.isDigit) then
    some (cs.foldl (fun a c => a * 10 + (c.toNat - 48)) 0)
  else
    none

/-- Embedding of `pd.to_numeric(..., errors='coerce')` on one string:
parse an optional minus sign, an integer part and an optional decimal
fraction; anything else fails (pandas then yields NaN). -/
def parseNum? (str : String) : Option ℚ :=
  let t := trimChars str.data
  let neg : Bool := t.head? = some '-'
  let body := if neg then t.drop 1 else t
  let signed : ℚ → ℚ := fun v => if neg then -v else v
  match splitOnChar '.' body with
  | [ip] => (digitsToNat? ip).map (fun n => signed n)
  | [ip, fp] =>
      match digitsToNat? ip, digitsToNat? fp with
      | some a, some b => some (signed ((a : ℚ) + (b : ℚ) / (10 ^ fp.length)))
      | _, _ => none
  | _ => none

/-- `pd.to_numeric(cell, errors='coerce')`: strings parse to a number or
become NaN; numbers and NaN pass through. -/
def toNumericCell (c : Cell) : Cell :=
  match c with
  | Cell.s v =>
      match parseNum? v with
      | some x => Cell.q x
      | none => Cell.nan
  | Cell.q x => Cell.q x
  | Cell.nan => Cell.nan

/-- `.fillna(0)` on one cell. -/
def fillna0Cell (c : Cell) : Cell :=
  if c = Cell.nan then Cell.q 0 else c

/-- The `Hr` normalization of `fetch_data` / `fetch_data_from_sheet`:
`df['Hr'] = pd.to_numeric(df['Hr'], errors='coerce').fillna(0)`,
applied to the `Hr` column. -/
def loadHrCol (col : List Cell) : List Cell :=
  (col.map toNumericCell).map fillna0Cell

/-! ## Duplicate highlighting (`data.py`, `highlight_duplicates`) -/

/-- The `(Date, Student ID)` key of a row, given the positions `i`, `j` of
those two columns (`none` components stand for out-of-range access). -/
def rowKey (i j : ℕ) (r : List Cell) : Option Cell × Option Cell :=
  (r[i]?, r[j]?)

/-- `df.duplicated(subset=["Date", "Student ID"], keep=False)`: row `r` is
marked exactly when its key occurs at least twice in the frame. -/
def dupMarks (rows : List (List Cell)) (i j : ℕ) : List Bool :=
  rows.map (fun r =>
    decide (2 ≤ rows.countP (fun t => decide (rowKey i j t = rowKey i j r))))

/-- The possible results of `highlight_duplicates`: the frame passed
through unstyled, or a pandas `Styler` (the frame plus one background
mark per row). -/
inductive HDOut : Type where
  | plain : DataFrame → HDOut
  | styled : DataFrame → List Bool → HDOut
deriving DecidableEq, Repr

/-- The frame a `highlight_duplicates` result displays. -/
def HDOut.frame : HDOut → DataFrame
  | HDOut.plain df => df
  | HDOut.styled df _ => df

/-- `highlight_duplicates(df)` from `data.py`: `None` and empty frames
pass through; otherwise rows duplicated on `(Date, Student ID)` are
marked.  `df.duplicated` raises `KeyError` when either column is
missing. -/
def highlight_duplicates (df? : Option DataFrame) :
    Except String (Option HDOut) :=
  match df? with
  | none => Except.ok none
  | some df =>
      if df.emptyB then Except.ok (some (HDOut.plain df))
      else
        match colIdx df.cols "Date", colIdx df.cols "Student ID" with
        | some i, some j =>
            Except.ok (some (HDOut.styled df (dupMarks df.rows i j)))
        | _, _ => Except.error "KeyError"

/-! ## Consolidated class hours (`data.py`, `main`, tab 2)

`grouped = summary.groupby(["Class", "Syllabus", "Type of class"])
            .agg({"Hr": "sum"})` and `total_hours = summary['Hr'].sum()`. -/

/-- The numeric value of a cell for summation (pandas `sum` skips NaN;
the `Hr` column holds only numbers after loading). -/
def cellQ : Cell → ℚ
  | Cell.q x => x
  | _ => 0

/-- The `(Class, Syllabus, Type of class)` group key of a row. -/
def summaryKey (cols : List String) (r : List Cell) : Cell × Cell × Cell :=
  (cellAt cols r "Class", cellAt cols r "Syllabus", cellAt cols r "Type of class")

/-- The `Hr` value of a row. -/
def hrVal (cols : List String) (r : List Cell) : ℚ :=
  cellQ (cellAt cols r "Hr")

/-- `summary.groupby([...]).agg({"Hr": "sum"})`: one `(key, total)` pair
per distinct group key. -/
def groupedHours (df : DataFrame) : List ((Cell × Cell × Cell) × ℚ) :=
  ((df.rows.map (summaryKey df.cols)).dedup).map
    (fun k => (k,
      ((df.rows.filter (fun r => decide (summaryKey df.cols r = k))).map
        (hrVal df.cols)).sum))

/-- `summary['Hr'].sum()`. -/
def total_hours (df : DataFrame) : ℚ :=
  (df.rows.map (hrVal df.cols)).sum

/-! ## Header normalization (`fetch_data` / `fetch_data_from_sheet`)

`headers = headers.str.strip(); headers.where(headers != '', 'Unnamed');
headers + headers.groupby(headers).cumcount().astype(str).replace('0','')`. -/

/-- A raw header after stripping and blank replacement. -/
def headerBase (h : String) : String :=
  let t := strTrim h
  if t = "" then "Unnamed" else t

/-- Attach the cumcount suffix: the `k`-th repeat (`k ≥ 1`) of a base name
gets the decimal digits of `k` appended; the first occurrence is bare. -/
def suffixName (b : String) (k : ℕ) : String :=
  if k = 0 then b else b ++ toString k

/-- Streaming pass of the cumcount suffixing: `seen` holds the bases of
the headers already processed. -/
def normalizeHeadersGo : List String → List String → List String
  | _, [] => []
  | seen, h :: t =>
      let b := headerBase h
      suffixName b (seen.count b) :: normalizeHeadersGo (b :: seen) t

/-- The full header normalization of `fetch_data`. -/
def normalizeHeaders (raw : List String) : List String :=
  normalizeHeadersGo [] raw

/-! ## Teacher filtering (`filter_overlimit_for_teacher`, `get_exam_data`) -/

/-- `str(cell)` (pandas `astype(str)` on one cell). -/
def cellToStr : Cell → String
  | Cell.s v => v
  | Cell.q x => toString x
  | Cell.nan => "nan"

/-- `astype(str).str.strip().str.lower()` on one cell. -/
def normTid (c : Cell) : Cell :=
  Cell.s (strLower (strTrim (cellToStr c)))

/-- Replace the cell at one position of a row. -/
def modifyAt (f : Cell → Cell) : ℕ → List Cell → List Cell
  | _, [] => []
  | 0, c :: t => f c :: t
  | n + 1, c :: t => c :: modifyAt f n t

/-- Apply `f` to every cell of the named column. -/
def mapColNamed (df : DataFrame) (c : String) (f : Cell → Cell) : DataFrame :=
  match colIdx df.cols c with
  | some i => ⟨df.cols, df.rows.map (modifyAt f i)⟩
  | none => df

/-- `df.loc[:, cs]`: project a frame onto a list of column names. -/
def selectCols (df : DataFrame) (cs : List String) : DataFrame :=
  ⟨cs, df.rows.map (fun r => cs.map (fun c => cellAt df.cols r c))⟩

/-- The fuzzy teacher-column search of `filter_overlimit_for_teacher`:
exact `'teacher id'` after strip+lower, or a name containing both
`'teacher'` and `'id'` case-insensitively. -/
def findTeacherColOver (cols : List String) : Option String :=
  cols.find? (fun c =>
    decide (strLower (strTrim c) = "teacher id") ||
      (strContainsSub (strLower c) "teacher" && strContainsSub (strLower c) "id"))

/-- The exact teacher-column search of `get_exam_data`. -/
def findTeacherColExact (cols : List String) : Option String :=
  cols.find? (fun c => decide (strLower (strTrim c) = "teacher id"))

/-- Normalize the named column and keep only the rows whose cell there
equals the supplied normalized teacher id. -/
def filterByTeacher (df : DataFrame) (tc : String) (tid : String) : DataFrame :=
  match colIdx df.cols tc with
  | some ti =>
      let d1 : DataFrame := ⟨df.cols, df.rows.map (modifyAt normTid ti)⟩
      ⟨d1.cols, d1.rows.filter (fun r => decide (r.getD ti Cell.nan = Cell.s tid))⟩
  | none => df

/-- The display columns of `filter_overlimit_for_teacher`. -/
def overlimitShowCols : List String :=
  ["EM", "Student ID", "Student", "Chapter Taken", "Hours Taken", "Max. Hours Alloted"]

/-- Coerce the named column with `pd.to_numeric(..., errors='coerce')`. -/
def coerceColNamed (df : DataFrame) (c : String) : DataFrame :=
  mapColNamed df c toNumericCell

/-- Pandas `Series.sub`: numeric subtraction, NaN-propagating. -/
def subCell : Cell → Cell → Cell
  | Cell.q a, Cell.q b => Cell.q (a - b)
  | _, _ => Cell.nan

/-- Append the `Difference` column: `Hours Taken − Max. Hours Alloted`
when both columns exist, `Hours Taken` when only it exists, NaN
otherwise. -/
def addDiffCol (df : DataFrame) : DataFrame :=
  if "Hours Taken" ∈ df.cols ∧ "Max. Hours Alloted" ∈ df.cols then
    ⟨df.cols ++ ["Difference"],
      df.rows.map (fun r => r ++
        [subCell (cellAt df.cols r "Hours Taken")
          (cellAt df.cols r "Max. Hours Alloted")])⟩
  else if "Hours Taken" ∈ df.cols then
    ⟨df.cols ++ ["Difference"],
      df.rows.map (fun r => r ++ [cellAt df.cols r "Hours Taken"])⟩
  else
    ⟨df.cols ++ ["Difference"], df.rows.map (fun r => r ++ [Cell.nan])⟩

/-- The column-selection, coercion and `Difference` tail of
`filter_overlimit_for_teacher` (everything after the teacher filter). -/
def overlimitProject (d : DataFrame) : DataFrame :=
  let existing := overlimitShowCols.filter (fun c => decide (c ∈ d.cols))
  if existing = [] then emptyDF
  else
    addDiffCol
      (coerceColNamed (coerceColNamed (selectCols d existing) "Hours Taken")
        "Max. Hours Alloted")

/-- `filter_overlimit_for_teacher(overlimit_df, teacher_id_norm)` from
`data.py`. -/
def filter_overlimit_for_teacher (df? : Option DataFrame) (tid : String) :
    DataFrame :=
  match df? with
  | none => emptyDF
  | some df =>
      if df.emptyB then emptyDF
      else
        match findTeacherColOver df.cols with
        | some tc => overlimitProject (filterByTeacher df tc tid)
        | none => overlimitProject df

/-- The display columns of `get_exam_data`. -/
def examShowCols : List String :=
  ["Student ID", "Name", "SubJect", "Chapter name", "EM"]

/-- The column-selection tail of `get_exam_data`. -/
def examProject (d : DataFrame) : DataFrame :=
  let existing := examShowCols.filter (fun c => decide (c ∈ d.cols))
  if existing = [] then emptyDF
  else selectCols d existing

/-- `get_exam_data(teacher_id, examlist_df)` from `data.py`. -/
def get_exam_data (tid : String) (df? : Option DataFrame) : DataFrame :=
  match df? with
  | none => emptyDF
  | some df =>
      if df.emptyB then emptyDF
      else
        match findTeacherColExact df.cols with
        | some tc => examProject (filterByTeacher df tc tid)
        | none => examProject df

/-! ## Teacher–student merge (`data.py`, `merge_teacher_student`) -/

/-- `df.rename(columns={a: b})`. -/
def renameCol (df : DataFrame) (a b : String) : DataFrame :=
  ⟨df.cols.map (fun c => if c = a then b else c), df.rows⟩

/-- `merge_teacher_student(main_df, student_df)` from `data.py`: guard
clauses return an empty frame; a student frame without `Student ID`
returns the main frame unmerged; otherwise a left join on `Student ID`
appends the `EM` / `Phone Number` columns found in the student frame.
Every code path returns a frame — the `try/except` around the join
re-returns `main_df` on error, so the operation never raises. -/
def merge_teacher_student (main? student? : Option DataFrame) :
    Except String DataFrame :=
  match main?, student? with
  | none, _ => Except.ok emptyDF
  | _, none => Except.ok emptyDF
  | some m0, some s0 =>
      if m0.emptyB || s0.emptyB then Except.ok emptyDF
      else
        let m :=
          if "Student id" ∈ m0.cols ∧ "Student ID" ∉ m0.cols then
            renameCol m0 "Student id" "Student ID"
          else m0
        let s1 :=
          if "Student id" ∈ s0.cols ∧ "Student ID" ∉ s0.cols then
            renameCol s0 "Student id" "Student ID"
          else s0
        if "Student ID" ∉ s1.cols then Except.ok m
        else
          let withEM := "EM" ∈ s1.cols
          let s2 :=
            if "EM Phone" ∈ s1.cols ∧ "Phone Number" ∉ s1.cols then
              renameCol s1 "EM Phone" "Phone Number"
            else s1
          let extra :=
            (if withEM then ["EM"] else []) ++
              (if "Phone Number" ∈ s2.cols then ["Phone Number"] else [])
          if "Student ID" ∉ m.cols then Except.ok m
          else
            let rows := m.rows.flatMap (fun r =>
              let key := cellAt m.cols r "Student ID"
              let hits := s2.rows.filter
                (fun t => decide (cellAt s2.cols t "Student ID" = key))
              if hits.isEmpty then [r ++ extra.map (fun _ => Cell.nan)]
              else hits.map (fun t => r ++ extra.map (cellAt s2.cols t)))
            Except.ok ⟨m.cols ++ extra, rows⟩

/-! ## Student-app loading (`student_app.py`, `load_data`) -/

/-- `pd.to_datetime(..., errors='coerce')` on one string: accept
`YYYY-MM-DD` or `DD/MM/YYYY` with plausible month and day; anything else
is NaT. -/
def parseDate? (str : String) : Option (ℕ × ℕ × ℕ) :=
  let t := trimChars str.data
  match splitOnChar '-' t with
  | [y, m, d] =>
      match digitsToNat? y, digitsToNat? m, digitsToNat? d with
      | some a, some b, some c =>
          if 1 ≤ b ∧ b ≤ 12 ∧ 1 ≤ c ∧ c ≤ 31 then some (a, b, c) else none
      | _, _, _ => none
  | _ =>
      match splitOnChar '/' t with
      | [d, m, y] =>
          match digitsToNat? d, digitsToNat? m, digitsToNat? y with
          | some c, some b, some a =>
              if 1 ≤ b ∧ b ≤ 12 ∧ 1 ≤ c ∧ c ≤ 31 then some (a, b, c) else none
          | _, _, _ => none
      | _ => none

/-- A parsed date is re-stored as its ISO string; failures become NaT. -/
def toDatetimeCell (c : Cell) : Cell :=
  match c with
  | Cell.s v =>
      match parseDate? v with
      | some p => Cell.s (toString p.1 ++ "-" ++ toString p.2.1 ++ "-" ++ toString p.2.2)
      | none => Cell.nan
  | Cell.q _ => Cell.nan
  | Cell.nan => Cell.nan

/-- `astype(str).str.lower().str.strip()` on one cell. -/
def normStudentCell (c : Cell) : Cell :=
  Cell.s (strTrim (strLower (cellToStr c)))

/-- The required columns of `load_data`. -/
def requiredColumns : List String :=
  ["date", "subject", "hr", "teachers name",
    "chapter taken", "type of class", "student id", "student"]

/-- `load_data` from `student_app.py`, applied to the frame returned by
the fetch step: lowercase/strip the column names, raise `ValueError`
when a required column is missing, then select the required columns and
normalize the matching fields. -/
def load_data (data : DataFrame) : Except String DataFrame :=
  let d0 : DataFrame := ⟨data.cols.map (fun c => strLower (strTrim c)), data.rows⟩
  let missing := requiredColumns.filter (fun c => decide (c ∉ d0.cols))
  if missing = [] then
    let d1 := selectCols d0 requiredColumns
    let d2 := mapColNamed d1 "student id" normStudentCell
    let d3 := mapColNamed d2 "student" normStudentCell
    let d4 := mapColNamed d3 "hr" (fun c => fillna0Cell (toNumericCell c))
    let d5 := mapColNamed d4 "date" toDatetimeCell
    Except.ok d5
  else Except.error ("Missing columns in data: " ++ toString missing)

/-! ## Session Classifier & Pricer

The rate-classification engine is described by the specification (§4.1–§4.3)
but its code is not among the repository files available here; it is
modelled from the spec below. -/

/-- Modelled from the spec: §3, a raw `SessionRecord`. -/
structure SessionRecord : Type where
  date : String
  studentId : String
  studentName : String
  teacherId : String
  teacherName : String
  rawLevel : String
  board : String
  classType : String
  hours : ℚ
deriving DecidableEq, Repr

/-- Modelled from the spec: §3, a `NormalizedLevel`. -/
inductive NormLevel : Type where
  | numeric : ℕ → NormLevel
  | named : String → NormLevel
  | unknown : NormLevel
deriving DecidableEq, Repr

/-- Modelled from the spec: §4.1 Level Normalizer — strip and lowercase
for comparison; named exception `lkg`; a hyphenated range maps to its
upper bound; a plain integer maps to itself; anything else is
`unknown`. -/
def normalizeLevel (raw : String) : NormLevel :=
  let t := (trimChars raw.data).map Char.toLower
  if t = "lkg".data then NormLevel.named "LKG"
  else
    match splitOnChar '-' t with
    | [a] =>
        match digitsToNat? (trimChars a) with
        | some n => NormLevel.numeric n
        | none => NormLevel.unknown
    | [a, b] =>
        match digitsToNat? (trimChars a), digitsToNat? (trimChars b) with
        | some _, some hi => NormLevel.numeric hi
        | _, _ => NormLevel.unknown
    | _ => NormLevel.unknown

/-- Modelled from the spec: §4.2, the class category. -/
inductive Category : Type where
  | demo : Category
  | paid : Category
  | standard : Category
deriving DecidableEq, Repr

/-- Modelled from the spec: §4.2, the board group. -/
inductive BoardGroup : Type where
  | ibIgcse : BoardGroup
  | other : BoardGroup
deriving DecidableEq, Repr

/-- Modelled from the spec: §4.2 category detection precedence — a
demo-class marker in `studentId` or `classType` wins; else a `classType`
beginning with `paid`; else Standard. -/
def categoryOf (studentId classType : String) : Category :=
  if strContainsSub (strLower studentId) "demo" ||
      strContainsSub (strLower classType) "demo" then Category.demo
  else if "paid".data.isPrefixOf (strLower (strTrim classType)).data then
    Category.paid
  else Category.standard

/-- Modelled from the spec: §4.2 board grouping — `igcse` and `ib`
(case-insensitive) map to `IB_IGCSE`, everything else to `OTHER`. -/
def boardGroupOf (board : String) : BoardGroup :=
  let b := strLower (strTrim board)
  if b = "igcse" ∨ b = "ib" then BoardGroup.ibIgcse else BoardGroup.other

/-- Modelled from the spec: §3, the rate formula of a `RateRule`. -/
inductive Formula : Type where
  | perHour : Formula
  | perHourTimesFour : Formula
deriving DecidableEq, Repr

/-- Modelled from the spec: §3, a `RateRule`; `boardGroup = none` and
`levelRange = none` mean "any". -/
structure RateRule : Type where
  category : Category
  boardGroup : Option BoardGroup
  levelRange : Option (ℕ × ℕ)
  rate : ℚ
  formula : Formula
deriving DecidableEq, Repr

/-- Modelled from the spec: §4.2, the default rate schedule, in table
order. -/
def defaultSchedule : List RateRule :=
  [⟨Category.demo, none, some (1, 10), 150, Formula.perHour⟩,
   ⟨Category.demo, none, some (11, 12), 180, Formula.perHour⟩,
   ⟨Category.paid, none, none, 100, Formula.perHourTimesFour⟩,
   ⟨Category.standard, some BoardGroup.ibIgcse, some (1, 4), 120, Formula.perHour⟩,
   ⟨Category.standard, some BoardGroup.ibIgcse, some (5, 7), 150, Formula.perHour⟩,
   ⟨Category.standard, some BoardGroup.ibIgcse, some (8, 10), 170, Formula.perHour⟩,
   ⟨Category.standard, some BoardGroup.ibIgcse, some (11, 13), 200, Formula.perHour⟩,
   ⟨Category.standard, some BoardGroup.other, some (1, 4), 120, Formula.perHour⟩,
   ⟨Category.standard, some BoardGroup.other, some (5, 10), 150, Formula.perHour⟩,
   ⟨Category.standard, some BoardGroup.other, some (11, 12), 180, Formula.perHour⟩]

/-- Modelled from the spec: §4.3 rule matching — the category must agree,
the board group must agree unless the rule accepts any, and a level range
requires a numeric level inside it. -/
def ruleMatches (rule : RateRule) (cat : Category) (bg : BoardGroup)
    (lvl : NormLevel) : Bool :=
  decide (rule.category = cat) &&
    (match rule.boardGroup with
     | none => true
     | some g => decide (g = bg)) &&
    (match rule.levelRange with
     | none => true
     | some (lo, hi) =>
         match lvl with
         | NormLevel.numeric n => decide (lo ≤ n ∧ n ≤ hi)
         | _ => false)

/-- Modelled from the spec: §3, a `PricedSession`. -/
structure PricedSession : Type where
  session : SessionRecord
  category : Category
  boardGroup : BoardGroup
  amount : ℚ
  matchedRule : Option ℕ
  warning : Option String
deriving DecidableEq, Repr

/-- Modelled from the spec: §4.3 `price` — normalize, classify, pick the
first matching rule; no match yields amount 0 with the `unclassified`
warning; non-positive hours yield amount 0; total on every input. -/
def price (s : SessionRecord) (schedule : List RateRule) : PricedSession :=
  let lvl := normalizeLevel s.rawLevel
  let cat := categoryOf s.studentId s.classType
  let bg := boardGroupOf s.board
  match schedule.enum.find? (fun p => ruleMatches p.2 cat bg lvl) with
  | some (i, r) =>
      let amt : ℚ :=
        if s.hours ≤ 0 then 0
        else
          match r.formula with
          | Formula.perHour => s.hours * r.rate
          | Formula.perHourTimesFour => s.hours * 4 * r.rate
      ⟨s, cat, bg, amt, some i, none⟩
  | none => ⟨s, cat, bg, 0, none, some "unclassified"⟩

/-- Modelled from the spec: §4.3 batch pricing — every row is priced,
one bad row never blocks the rest. -/
def priceBatch (l : List SessionRecord) (schedule : List RateRule) :
    List PricedSession :=
  l.map (fun s => price s schedule)

/-- Three concrete daily-log rows: two share `(Date, Student ID)` and the
third has a different student. -/
def dfDup : DataFrame :=
  ⟨["Date", "Student ID"],
   [[Cell.s "2024-05-01", Cell.s "s1"],
    [Cell.s "2024-05-01", Cell.s "s1"],
    [Cell.s "2024-05-01", Cell.s "s2"]]⟩

/-- A non-empty frame without the `Date` / `Student ID` key columns. -/
def dfNoKeyCols : DataFrame := ⟨["X"], [[Cell.s "a"]]⟩

/-- Two summary rows in one order. -/
def dfHrsA : DataFrame :=
  ⟨["Class", "Syllabus", "Type of class", "Hr"],
   [[Cell.s "c1", Cell.s "IB", Cell.s "Regular", Cell.q 1],
    [Cell.s "c2", Cell.s "CBSE", Cell.s "Regular", Cell.q 2]]⟩

/-- The same two summary rows, swapped. -/
def dfHrsB : DataFrame :=
  ⟨["Class", "Syllabus", "Type of class", "Hr"],
   [[Cell.s "c2", Cell.s "CBSE", Cell.s "Regular", Cell.q 2],
    [Cell.s "c1", Cell.s "IB", Cell.s "Regular", Cell.q 1]]⟩

/-- A frame carrying only a `Date` column. -/
def dfPartial : DataFrame := ⟨["Date"], [[Cell.s "x"]]⟩

/-- A Standard-category, IB-board, one-hour session at the given raw
level. -/
def stdIBSession (lvl : String) : SessionRecord :=
  ⟨"2024-05-01", "s1", "stu", "t1", "tea", lvl, "IB", "Regular", 1⟩

/-! ## C6 / C10: spec-shaped views of the teacher filters -/

/-- Spec-shaped view of one cell of the overlimit output: the input
row's cell under column `c`, numerically coerced for the two hour
columns. -/
def overlimitViewCell (cols : List String) (r : List Cell) (c : String) : Cell :=
  if c = "Hours Taken" ∨ c = "Max. Hours Alloted" then
    toNumericCell (cellAt cols r c)
  else cellAt cols r c

/-- Spec-shaped view of one overlimit output row: the present display
columns of the input row, hour columns coerced, plus the `Difference`
cell (`Hours Taken − Max. Hours Alloted`, or `Hours Taken`, or NaN,
by column presence). -/
def overlimitViewRow (cols : List String) (r : List Cell) : List Cell :=
  (overlimitShowCols.filter (fun c => decide (c ∈ cols))).map
    (overlimitViewCell cols r) ++
    [if "Hours Taken" ∈ cols ∧ "Max. Hours Alloted" ∈ cols then
       subCell (toNumericCell (cellAt cols r "Hours Taken"))
         (toNumericCell (cellAt cols r "Max. Hours Alloted"))
     else if "Hours Taken" ∈ cols then
       toNumericCell (cellAt cols r "Hours Taken")
     else Cell.nan]

/-- Spec-shaped view of one exam output row: the present display columns
of the input row. -/
def examViewRow (cols : List String) (r : List Cell) : List Cell :=
  (examShowCols.filter (fun c => decide (c ∈ cols))).map (cellAt cols r)

/-- A frame whose only column is the teacher id. -/
def dfTidOnly : DataFrame := ⟨["Teacher ID"], [[Cell.s "t1"]]⟩

/-- A concrete overlimit sheet: teacher column plus display columns; the
first row belongs to teacher `t1` (spelled `" T1 "`), the second to
`t2`. -/
def dfOver : DataFrame :=
  ⟨["Teacher ID", "Student ID", "Hours Taken", "Max. Hours Alloted"],
   [[Cell.s " T1 ", Cell.s "s1", Cell.s "5", Cell.s "3"],
    [Cell.s "t2", Cell.s "s2", Cell.s "4", Cell.s "6"]]⟩

/-! ## Helper lemmas -/

lemma normalizeHeadersGo_length (raw : List String) :
    ∀ seen : List String, (normalizeHeadersGo seen raw).length = raw.length := by
  induction raw with
  | nil => intro seen; rfl
  | cons h t ih => intro seen; simp [normalizeHeadersGo, ih]

lemma normalizeHeadersGo_getD (raw : List String) :
    ∀ (seen : List String) (i : ℕ), i < raw.length →
      (normalizeHeadersGo seen raw).getD i "" =
        suffixName (headerBase (raw.getD i ""))
          (seen.count (headerBase (raw.getD i "")) +
            ((raw.take i).map headerBase).count (headerBase (raw.getD i ""))) := by
  induction raw with
  | nil => intro seen i hi; simp at hi
  | cons h t ih =>
      intro seen i hi
      cases i with
      | zero => simp [normalizeHeadersGo]
      | succ n =>
          have hn : n < t.length := by simpa using hi
          simp only [normalizeHeadersGo, List.getD_cons_succ, List.take_succ_cons,
            List.map_cons, List.count_cons]
          rw [ih (headerBase h :: seen) n hn]
          simp only [List.count_cons]
          ring_nf

lemma strTrim_append_ne_empty (a b : String) (ha : a ≠ "") : a ++ b ≠ "" := by
  intro h
  apply ha
  have : (a ++ b).length = 0 := by rw [h]; rfl
  rw [String.length_append] at this
  have ha0 : a.length = 0 := by omega
  cases a with
  | mk d =>
      cases d with
      | nil => rfl
      | cons c t => simp [String.length] at ha0

lemma headerBase_ne_empty (h : String) : headerBase h ≠ "" := by
  unfold headerBase
  by_cases ht : strTrim h = ""
  · simp [ht]
  · simp [ht]

lemma suffixName_ne_empty (h : String) (k : ℕ) : suffixName (headerBase h) k ≠ "" := by
  unfold suffixName
  by_cases hk : k = 0
  · simpa [hk] using headerBase_ne_empty h
  · simp only [hk, if_false]
    exact strTrim_append_ne_empty _ _ (headerBase_ne_empty h)

/-! ## C9: header normalization -/

/-- C9 counterexample: the cumcount suffixing does **not** guarantee
pairwise-distinct names — raw headers `A, A, A1` normalize to
`A, A1, A1`, in which `A1` occurs twice. -/
theorem normalizeHeaders_not_unique_cex :
    normalizeHeaders ["A", "A", "A1"] = ["A", "A1", "A1"] ∧
      ¬ (normalizeHeaders ["A", "A", "A1"]).Nodup := by
  constructor
  · decide
  · decide

/-- C9 (amended): header normalization preserves the header count, every
normalized name is non-empty (a blank or whitespace header becomes
`Unnamed`), and the `i`-th name is its stripped base (blank ↦ `Unnamed`)
suffixed with the number of earlier occurrences of that base — bare on
first occurrence, a numeric suffix from the second occurrence on.  The
resulting names need not be pairwise distinct. -/
theorem normalizeHeaders_shape (raw : List String) (i : ℕ)
    (hi : i < raw.length) :
    (normalizeHeaders raw).length = raw.length ∧
    (normalizeHeaders raw).getD i "" ≠ "" ∧
    (normalizeHeaders raw).getD i "" =
      suffixName (headerBase (raw.getD i ""))
        (((raw.take i).map headerBase).count (headerBase (raw.getD i ""))) := by
  have hlen := normalizeHeadersGo_length raw []
  have hget := normalizeHeadersGo_getD raw [] i hi
  refine ⟨hlen, ?_, ?_⟩
  · unfold normalizeHeaders
    rw [hget]
    simpa using suffixName_ne_empty (raw.getD i "") _
  · unfold normalizeHeaders
    rw [hget]
    simp

/-- C9 witness: on the concrete headers `["", "A", "A"]`, position 2 is
the second occurrence of base `A` and is non-empty. -/
theorem normalizeHeaders_shape_witness :
    (normalizeHeaders ["", "A", "A"]).getD 2 "" ≠ "" ∧
      (normalizeHeaders ["", "A", "A"]).getD 2 "" =
        suffixName (headerBase "A")
          (((["", "A", "A"].take 2).map headerBase).count (headerBase "A")) := by
  have h := normalizeHeaders_shape ["", "A", "A"] 2 (by decide)
  exact ⟨h.2.1, h.2.2⟩

lemma getD_map_of_lt {α β : Type} (f : α → β) (l : List α) (n : ℕ)
    (hn : n < l.length) (d : β) :
    (l.map f).getD n d = f (l.get ⟨n, hn⟩) := by
  rw [List.getD_eq_getElem?_getD, List.getElem?_map,
    List.getElem?_eq_getElem hn]
  rfl

lemma two_le_countP_iff {α : Type} (p : α → Bool) :
    ∀ (l : List α) (n : ℕ) (hn : n < l.length), p (l.get ⟨n, hn⟩) = true →
      (2 ≤ l.countP p ↔
        ∃ m, ∃ hm : m < l.length, m ≠ n ∧ p (l.get ⟨m, hm⟩) = true) := by
  intro l
  induction l with
  | nil => intro n hn; simp at hn
  | cons a t ih =>
      intro n hn hp
      cases n with
      | zero =>
          have hpa : p a = true := by simpa using hp
          rw [List.countP_cons_of_pos _ _ hpa]
          constructor
          · intro h2
            have h1 : 0 < t.countP p := by omega
            obtain ⟨x, hx, hpx⟩ := List.countP_pos_iff.mp h1
            obtain ⟨⟨k, hk⟩, hget⟩ := List.mem_iff_get.mp hx
            have hx' : p (t.get ⟨k, hk⟩) = true := by rw [hget]; exact hpx
            exact ⟨k + 1, by simpa using Nat.succ_lt_succ hk, by simp, hx'⟩
          · rintro ⟨m, hm, hne, hpm⟩
            cases m with
            | zero => exact absurd rfl hne
            | succ k =>
                have hk : k < t.length := by simpa using hm
                have hpos : 0 < t.countP p := by
                  apply List.countP_pos_iff.mpr
                  exact ⟨t.get ⟨k, hk⟩, List.get_mem t k hk,
                    by simpa [List.get_cons_succ] using hpm⟩
                omega
      | succ k =>
          have hk : k < t.length := by simpa using hn
          have hpk : p (t.get ⟨k, hk⟩) = true := by
            simpa [List.get_cons_succ] using hp
          by_cases hpa : p a = true
          · rw [List.countP_cons_of_pos _ _ hpa]
            have hpos : 0 < t.countP p :=
              List.countP_pos_iff.mpr
                ⟨t.get ⟨k, hk⟩, List.get_mem t k hk, hpk⟩
            constructor
            · intro _
              exact ⟨0, by simp, by simp, by simpa using hpa⟩
            · intro _
              omega
          · rw [List.countP_cons_of_neg _ _ (by simpa using hpa)]
            rw [ih k hk hpk]
            constructor
            · rintro ⟨m, hm, hne, hpm⟩
              refine ⟨m + 1, by simpa using Nat.succ_lt_succ hm, by omega, ?_⟩
              simpa [List.get_cons_succ] using hpm
            · rintro ⟨m, hm, hne, hpm⟩
              cases m with
              | zero =>
                  exact absurd (by simpa using hpm) hpa
              | succ m' =>
                  refine ⟨m', by simpa using hm, by omega, ?_⟩
                  simpa [List.get_cons_succ] using hpm

/-! ## C1: duplicate detection marks exactly the 2+ groups -/

/-- C1: with `Date` at column position `i` and `Student ID` at position
`j`, `highlight_duplicates` styles the frame with `dupMarks`, and row `n`
is marked if and only if some other row carries the same
`(Date, Student ID)` pair; a pair occurring exactly once is never
marked. -/
theorem highlight_duplicates_marks_iff (df : DataFrame) (i j : ℕ)
    (hd : colIdx df.cols "Date" = some i)
    (hs : colIdx df.cols "Student ID" = some j)
    (n : ℕ) (hn : n < df.rows.length) :
    highlight_duplicates (some df) =
      Except.ok (some (HDOut.styled df (dupMarks df.rows i j))) ∧
    ((dupMarks df.rows i j).getD n false = true ↔
      ∃ m, ∃ hm : m < df.rows.length, m ≠ n ∧
        rowKey i j (df.rows.get ⟨m, hm⟩) = rowKey i j (df.rows.get ⟨n, hn⟩)) := by
  have hrows : df.rows ≠ [] := by
    intro h; rw [h] at hn; simp at hn
  have hcols : df.cols ≠ [] := by
    intro h; rw [h] at hd; simp [colIdx] at hd
  have hemp : df.emptyB = false := by
    simp [DataFrame.emptyB, hrows, hcols]
  constructor
  · simp [highlight_duplicates, hemp, hd, hs]
  · unfold dupMarks
    rw [getD_map_of_lt _ _ n hn]
    rw [decide_eq_true_iff]
    rw [two_le_countP_iff _ df.rows n hn (by simp)]
    constructor
    · rintro ⟨m, hm, hne, hpm⟩
      exact ⟨m, hm, hne, by simpa using hpm⟩
    · rintro ⟨m, hm, hne, hpm⟩
      exact ⟨m, hm, hne, by simpa using hpm⟩


/-- C1 witness: in `dfDup`, row 0 is marked (row 1 shares its key). -/
theorem highlight_duplicates_marks_iff_witness :
    highlight_duplicates (some dfDup) =
      Except.ok (some (HDOut.styled dfDup (dupMarks dfDup.rows 0 1))) ∧
    (dupMarks dfDup.rows 0 1).getD 0 false = true := by
  have h := highlight_duplicates_marks_iff dfDup 0 1 (by decide) (by decide)
    0 (by decide)
  exact ⟨h.1, h.2.mpr ⟨1, by decide, by decide, by decide⟩⟩

/-! ## C8: the duplicate detector only flags -/


/-- C8 counterexample: `highlight_duplicates` does **not** return an
output for every input DataFrame — on a non-empty frame lacking the
`Date` column, `df.duplicated` raises `KeyError`, so no output contains
the input rows. -/
theorem highlight_duplicates_missing_cols_cex :
    highlight_duplicates (some dfNoKeyCols) = Except.error "KeyError" := rfl

/-- C8 (amended): on every frame that is empty or carries both key
columns, `highlight_duplicates` returns an output whose displayed frame
is exactly the input — rows are neither removed, combined nor changed
(the embedding is pure, so the input is not mutated); a non-empty frame
missing a key column instead raises `KeyError`. -/
theorem highlight_duplicates_preserves_frame (df : DataFrame)
    (h : df.emptyB = true ∨
      ((colIdx df.cols "Date").isSome ∧ (colIdx df.cols "Student ID").isSome)) :
    ∃ out : HDOut, highlight_duplicates (some df) = Except.ok (some out) ∧
      out.frame = df := by
  rcases h with he | ⟨h1, h2⟩
  · exact ⟨HDOut.plain df, by simp [highlight_duplicates, he], rfl⟩
  · obtain ⟨i, hi⟩ := Option.isSome_iff_exists.mp h1
    obtain ⟨j, hj⟩ := Option.isSome_iff_exists.mp h2
    by_cases he : df.emptyB
    · exact ⟨HDOut.plain df, by simp [highlight_duplicates, he], rfl⟩
    · exact ⟨HDOut.styled df (dupMarks df.rows i j),
        by simp [highlight_duplicates, he, hi, hj], rfl⟩

/-- C8 witness: the preservation theorem applied to the concrete frame
`dfDup`. -/
theorem highlight_duplicates_preserves_frame_witness :
    ∃ out : HDOut, highlight_duplicates (some dfDup) = Except.ok (some out) ∧
      out.frame = dfDup :=
  highlight_duplicates_preserves_frame dfDup (Or.inr ⟨by decide, by decide⟩)

lemma sum_map_filter_split {α : Type} (val : α → ℚ) (p : α → Bool)
    (l : List α) :
    ((l.filter p).map val).sum + ((l.filter (fun a => ! p a)).map val).sum
      = (l.map val).sum := by
  induction l with
  | nil => simp
  | cons a t ih =>
      by_cases hpa : p a = true
      · simp [List.filter_cons, hpa]
        linarith [ih]
      · simp [List.filter_cons, hpa]
        linarith [ih]

lemma sum_fiber {α κ : Type} [DecidableEq κ] (key : α → κ) (val : α → ℚ) :
    ∀ (keys : List κ) (l : List α), keys.Nodup → (∀ a ∈ l, key a ∈ keys) →
      (keys.map
        (fun k => ((l.filter (fun a => decide (key a = k))).map val).sum)).sum
        = (l.map val).sum := by
  intro keys
  induction keys with
  | nil =>
      intro l _ hcov
      cases l with
      | nil => simp
      | cons a t =>
          exact absurd (hcov a (List.mem_cons_self a t)) (List.not_mem_nil _)
  | cons k ks ih =>
      intro l hnd hcov
      have hks : k ∉ ks := (List.nodup_cons.mp hnd).1
      have hnd' : ks.Nodup := (List.nodup_cons.mp hnd).2
      have hcov2 : ∀ a ∈ l.filter (fun a => ! decide (key a = k)), key a ∈ ks := by
        intro a ha
        obtain ⟨hal, hpa⟩ := List.mem_filter.mp ha
        have hne : key a ≠ k := by simpa using hpa
        rcases List.mem_cons.mp (hcov a hal) with h | h
        · exact absurd h hne
        · exact h
      have hfilters : ∀ k' ∈ ks,
          ((l.filter (fun a => decide (key a = k'))).map val).sum =
            (((l.filter (fun a => ! decide (key a = k))).filter
              (fun a => decide (key a = k'))).map val).sum := by
        intro k' hk'
        have hkk : k' ≠ k := by rintro rfl; exact hks hk'
        congr 1
        rw [List.filter_filter]
        congr 1
        apply List.filter_congr
        intro a _
        by_cases h : key a = k'
        · have h2 : key a ≠ k := by rw [h]; exact hkk
          simp [h, h2, hkk]
        · simp [h]
      simp only [List.map_cons, List.sum_cons]
      rw [List.map_congr_left hfilters]
      rw [ih (l.filter (fun a => ! decide (key a = k))) hnd' hcov2]
      exact sum_map_filter_split val (fun a => decide (key a = k)) l

/-! ## C2: conservation of hours under aggregation -/

/-- C2: the sum of the per-bucket `Hr` totals produced by the
`groupby([...]).agg({"Hr": "sum"})` of `main` equals the direct sum
`summary['Hr'].sum()` over all rows — aggregation conserves the total. -/
theorem groupedHours_conserves_total (df : DataFrame) :
    ((groupedHours df).map Prod.snd).sum = total_hours df := by
  unfold groupedHours total_hours
  rw [List.map_map]
  exact sum_fiber (summaryKey df.cols) (hrVal df.cols)
    ((df.rows.map (summaryKey df.cols)).dedup) df.rows
    (List.nodup_dedup _)
    (fun a ha => List.mem_dedup.mpr (List.mem_map_of_mem _ ha))

/-! ## C7: order-independence of aggregation -/

lemma mem_groupedHours (df : DataFrame) (kt : (Cell × Cell × Cell) × ℚ) :
    kt ∈ groupedHours df ↔
      ((∃ r ∈ df.rows, summaryKey df.cols r = kt.1) ∧
        kt.2 = ((df.rows.filter
          (fun r => decide (summaryKey df.cols r = kt.1))).map
            (hrVal df.cols)).sum) := by
  unfold groupedHours
  rw [List.mem_map]
  constructor
  · rintro ⟨k, hk, heq⟩
    obtain ⟨r, hr, hkey⟩ := List.mem_map.mp (List.mem_dedup.mp hk)
    have h1 : kt.1 = k := by rw [← heq]
    have h2 : kt.2 = ((df.rows.filter
        (fun r => decide (summaryKey df.cols r = k))).map (hrVal df.cols)).sum := by
      rw [← heq]
    exact ⟨⟨r, hr, by rw [h1]; exact hkey⟩, by rw [h2, h1]⟩
  · rintro ⟨⟨r, hr, hkey⟩, hsum⟩
    refine ⟨kt.1, List.mem_dedup.mpr (List.mem_map.mpr ⟨r, hr, hkey⟩), ?_⟩
    cases kt with
    | mk k v => simpa using hsum.symm

/-- C7: aggregation is order-independent — permuting the rows of the
summary frame yields the same set of `(group key, total)` pairs from
`groupedHours` and the same `total_hours`. -/
theorem groupedHours_order_independent (cols : List String)
    (rows1 rows2 : List (List Cell)) (hp : rows1.Perm rows2) :
    (∀ kt, kt ∈ groupedHours ⟨cols, rows1⟩ ↔ kt ∈ groupedHours ⟨cols, rows2⟩) ∧
      total_hours ⟨cols, rows1⟩ = total_hours ⟨cols, rows2⟩ := by
  constructor
  · intro kt
    rw [mem_groupedHours, mem_groupedHours]
    constructor <;> rintro ⟨⟨r, hr, hkey⟩, hsum⟩
    · refine ⟨⟨r, hp.mem_iff.mp hr, hkey⟩, ?_⟩
      rw [hsum]
      exact ((hp.filter _).map (hrVal cols)).sum_eq
    · refine ⟨⟨r, hp.mem_iff.mpr hr, hkey⟩, ?_⟩
      rw [hsum]
      exact ((hp.symm.filter _).map (hrVal cols)).sum_eq
  · exact (hp.map (hrVal cols)).sum_eq



/-- C7 witness: the order-independence theorem applied to the concrete
swapped frames `dfHrsA` and `dfHrsB`. -/
theorem groupedHours_order_independent_witness :
    (∀ kt, kt ∈ groupedHours dfHrsA ↔ kt ∈ groupedHours dfHrsB) ∧
      total_hours dfHrsA = total_hours dfHrsB :=
  groupedHours_order_independent _ _ _ (List.Perm.swap _ _ _)

/-! ## C3: Hr loading -/

lemma fillna0_toNumeric_num (a : Cell) :
    ∃ x : ℚ, fillna0Cell (toNumericCell a) = Cell.q x := by
  cases a with
  | s v =>
      cases hp : parseNum? v with
      | none => exact ⟨0, by simp [toNumericCell, hp, fillna0Cell]⟩
      | some x => exact ⟨x, by simp [toNumericCell, hp, fillna0Cell]⟩
  | q x => exact ⟨x, by simp [toNumericCell, fillna0Cell]⟩
  | nan => exact ⟨0, by simp [toNumericCell, fillna0Cell]⟩

/-- C3 counterexample: the loaded `Hr` value is **not** always `≥ 0` —
the numeric string `"-5"` coerces to `-5`, which the pipeline keeps
(no clamping). -/
theorem loadHrCol_negative_cex :
    loadHrCol [Cell.s "-5"] = [Cell.q (-5)] ∧ ¬ (0 ≤ (-5 : ℚ)) := by
  constructor
  · decide
  · norm_num

/-- C3 (amended): after the `Hr` load
(`pd.to_numeric(..., errors='coerce').fillna(0)`) every cell of the
column is a number — no NaN remains; every cell whose raw value fails
numeric coercion has become 0; and every successfully coerced value is
kept unchanged, including negative values, which are not clamped to 0. -/
theorem loadHrCol_no_nan_and_coerces (col : List Cell) :
    (∀ c ∈ loadHrCol col, ∃ x : ℚ, c = Cell.q x) ∧
    (∀ n, ∀ hn : n < col.length,
      toNumericCell (col.get ⟨n, hn⟩) = Cell.nan →
        (loadHrCol col).getD n Cell.nan = Cell.q 0) ∧
    (∀ n, ∀ hn : n < col.length, ∀ x : ℚ,
      toNumericCell (col.get ⟨n, hn⟩) = Cell.q x →
        (loadHrCol col).getD n Cell.nan = Cell.q x) := by
  refine ⟨?_, ?_, ?_⟩
  · intro c hc
    obtain ⟨b, hb, hbc⟩ := List.mem_map.mp hc
    obtain ⟨a, _, hab⟩ := List.mem_map.mp hb
    obtain ⟨x, hx⟩ := fillna0_toNumeric_num a
    exact ⟨x, by rw [← hbc, ← hab, hx]⟩
  · intro n hn hnan
    unfold loadHrCol
    rw [List.map_map, getD_map_of_lt _ _ n hn]
    simp only [Function.comp_apply, hnan]
    rfl
  · intro n hn x hx
    unfold loadHrCol
    rw [List.map_map, getD_map_of_lt _ _ n hn]
    simp only [Function.comp_apply, hx]
    rfl

/-- C3 witness: the amended theorem at the concrete non-numeric cell
`"abc"`, which loads as 0. -/
theorem loadHrCol_no_nan_and_coerces_witness :
    (loadHrCol [Cell.s "abc"]).getD 0 Cell.nan = Cell.q 0 :=
  (loadHrCol_no_nan_and_coerces [Cell.s "abc"]).2.1 0 (by decide) (by decide)

/-! ## C4: structural errors -/

/-- C4 counterexample: `merge_teacher_student` handed a null input does
**not** fail fast with an error — it returns the empty frame as an
ordinary (degraded) result. -/
theorem merge_teacher_student_none_cex :
    merge_teacher_student none none = Except.ok emptyDF := rfl

/-- C4 (amended): `load_data` fails fast with a descriptive `ValueError`
whenever a required column is missing after column-name normalization,
but `merge_teacher_student` given a null input returns an empty frame as
a degraded result instead of raising — fail-fast holds at the
`load_data` boundary only, not at every engine operation. -/
theorem load_data_missing_column_fails (data : DataFrame)
    (h : ∃ c ∈ requiredColumns,
      c ∉ data.cols.map (fun c => strLower (strTrim c))) :
    (∃ msg, load_data data = Except.error msg) ∧
      (∀ s? : Option DataFrame,
        merge_teacher_student none s? = Except.ok emptyDF) := by
  constructor
  · obtain ⟨c, hc, hnotin⟩ := h
    have hmem : c ∈ requiredColumns.filter
        (fun c => decide (c ∉
          (DataFrame.mk (data.cols.map (fun c => strLower (strTrim c)))
            data.rows).cols)) :=
      List.mem_filter.mpr ⟨hc, by simpa using hnotin⟩
    have hne := List.ne_nil_of_mem hmem
    unfold load_data
    rw [if_neg hne]
    exact ⟨_, rfl⟩
  · intro s?
    cases s? <;> rfl


/-- C4 witness: the fail-fast theorem at the concrete frame `dfPartial`,
which lacks the required `subject` column. -/
theorem load_data_missing_column_fails_witness :
    (∃ msg, load_data dfPartial = Except.error msg) ∧
      (∀ s? : Option DataFrame,
        merge_teacher_student none s? = Except.ok emptyDF) :=
  load_data_missing_column_fails dfPartial ⟨"subject", by decide, by decide⟩

/-! ## C5: pricing tier boundaries (spec-modelled) -/


/-- C5: for a Standard-category IB-board session the spec-modelled
pricer maps level 4 to rate 120, levels 5 and 7 to 150, levels 8 and 10
to 170, levels 11 and 13 to 200, while level 14 matches no rule —
amount 0, no matched rule, warning `unclassified` — and batch pricing
prices every row (one bad row never blocks the rest; `price` is total,
so no input raises). -/
theorem price_tier_boundaries :
    (price (stdIBSession "4") defaultSchedule).amount = 120 ∧
    (price (stdIBSession "5") defaultSchedule).amount = 150 ∧
    (price (stdIBSession "7") defaultSchedule).amount = 150 ∧
    (price (stdIBSession "8") defaultSchedule).amount = 170 ∧
    (price (stdIBSession "10") defaultSchedule).amount = 170 ∧
    (price (stdIBSession "11") defaultSchedule).amount = 200 ∧
    (price (stdIBSession "13") defaultSchedule).amount = 200 ∧
    (price (stdIBSession "14") defaultSchedule).amount = 0 ∧
    (price (stdIBSession "14") defaultSchedule).matchedRule = none ∧
    (price (stdIBSession "14") defaultSchedule).warning = some "unclassified" ∧
    (∀ l : List SessionRecord,
      (priceBatch l defaultSchedule).length = l.length) := by
  have h4 : price (stdIBSession "4") defaultSchedule =
      ⟨stdIBSession "4", Category.standard, BoardGroup.ibIgcse,
        (1 : ℚ) * 120, some 3, none⟩ := rfl
  have h5 : price (stdIBSession "5") defaultSchedule =
      ⟨stdIBSession "5", Category.standard, BoardGroup.ibIgcse,
        (1 : ℚ) * 150, some 4, none⟩ := rfl
  have h7 : price (stdIBSession "7") defaultSchedule =
      ⟨stdIBSession "7", Category.standard, BoardGroup.ibIgcse,
        (1 : ℚ) * 150, some 4, none⟩ := rfl
  have h8 : price (stdIBSession "8") defaultSchedule =
      ⟨stdIBSession "8", Category.standard, BoardGroup.ibIgcse,
        (1 : ℚ) * 170, some 5, none⟩ := rfl
  have h10 : price (stdIBSession "10") defaultSchedule =
      ⟨stdIBSession "10", Category.standard, BoardGroup.ibIgcse,
        (1 : ℚ) * 170, some 5, none⟩ := rfl
  have h11 : price (stdIBSession "11") defaultSchedule =
      ⟨stdIBSession "11", Category.standard, BoardGroup.ibIgcse,
        (1 : ℚ) * 200, some 6, none⟩ := rfl
  have h13 : price (stdIBSession "13") defaultSchedule =
      ⟨stdIBSession "13", Category.standard, BoardGroup.ibIgcse,
        (1 : ℚ) * 200, some 6, none⟩ := rfl
  have h14 : price (stdIBSession "14") defaultSchedule =
      ⟨stdIBSession "14", Category.standard, BoardGroup.ibIgcse,
        0, none, some "unclassified"⟩ := rfl
  refine ⟨?_, ?_, ?_, ?_, ?_, ?_, ?_, ?_, ?_, ?_, ?_⟩
  · rw [h4]; norm_num
  · rw [h5]; norm_num
  · rw [h7]; norm_num
  · rw [h8]; norm_num
  · rw [h10]; norm_num
  · rw [h11]; norm_num
  · rw [h13]; norm_num
  · rw [h14]
  · rw [h14]
  · rw [h14]
  · intro l
    simp [priceBatch]

lemma getD_eq_get {α : Type} (l : List α) (n : ℕ) (h : n < l.length) (d : α) :
    l.getD n d = l.get ⟨n, h⟩ := by
  rw [List.getD_eq_getElem?_getD, List.getElem?_eq_getElem h]
  rfl

lemma colIdx_spec (c : String) :
    ∀ (cols : List String) (i : ℕ), colIdx cols c = some i →
      ∃ h : i < cols.length, cols.get ⟨i, h⟩ = c := by
  intro cols
  induction cols with
  | nil => intro i h; simp [colIdx] at h
  | cons x t ih =>
      intro i h
      by_cases hx : x = c
      · rw [colIdx, if_pos hx] at h
        cases h
        exact ⟨by simp, hx⟩
      · rw [colIdx, if_neg hx] at h
        obtain ⟨j, hj, rfl⟩ := Option.map_eq_some'.mp h
        obtain ⟨hlt, hget⟩ := ih j hj
        exact ⟨by simpa using Nat.succ_lt_succ hlt, hget⟩

lemma colIdx_none_not_mem (c : String) :
    ∀ cols : List String, colIdx cols c = none → c ∉ cols := by
  intro cols
  induction cols with
  | nil => intro _ h; simp at h
  | cons x t ih =>
      intro h hmem
      by_cases hx : x = c
      · rw [colIdx, if_pos hx] at h; cases h
      · rw [colIdx, if_neg hx] at h
        rcases List.mem_cons.mp hmem with he | ht
        · exact hx he.symm
        · exact ih (by simpa using h) ht

lemma colIdx_isSome_of_mem (c : String) :
    ∀ cols : List String, c ∈ cols → ∃ i, colIdx cols c = some i := by
  intro cols hmem
  cases h : colIdx cols c with
  | none => exact absurd hmem (colIdx_none_not_mem c cols h)
  | some i => exact ⟨i, rfl⟩

lemma modifyAt_length (f : Cell → Cell) :
    ∀ (n : ℕ) (r : List Cell), (modifyAt f n r).length = r.length := by
  intro n
  induction n with
  | zero => intro r; cases r <;> rfl
  | succ m ih =>
      intro r
      cases r with
      | nil => rfl
      | cons a t => simpa [modifyAt] using ih t

lemma getD_modifyAt_self (f : Cell → Cell) :
    ∀ (n : ℕ) (r : List Cell), n < r.length →
      (modifyAt f n r).getD n Cell.nan = f (r.getD n Cell.nan) := by
  intro n
  induction n with
  | zero =>
      intro r hr
      cases r with
      | nil => simp at hr
      | cons a t => rfl
  | succ m ih =>
      intro r hr
      cases r with
      | nil => simp at hr
      | cons a t => simpa [modifyAt] using ih t (by simpa using hr)

lemma getD_modifyAt_ne (f : Cell → Cell) :
    ∀ (n m : ℕ) (r : List Cell), n ≠ m →
      (modifyAt f n r).getD m Cell.nan = r.getD m Cell.nan := by
  intro n
  induction n with
  | zero =>
      intro m r hne
      cases r with
      | nil => rfl
      | cons a t =>
          cases m with
          | zero => exact absurd rfl hne
          | succ k => rfl
  | succ p ih =>
      intro m r hne
      cases r with
      | nil => rfl
      | cons a t =>
          cases m with
          | zero => rfl
          | succ k =>
              simpa [modifyAt] using ih k t (by omega)

lemma cellAt_modifyAt_ne (cols : List String) (r : List Cell)
    (f : Cell → Cell) (ti : ℕ) (tc c : String)
    (hti : colIdx cols tc = some ti) (hc : c ≠ tc) :
    cellAt cols (modifyAt f ti r) c = cellAt cols r c := by
  unfold cellAt
  cases hcc : colIdx cols c with
  | none => rfl
  | some k =>
      obtain ⟨hk1, hk2⟩ := colIdx_spec c cols k hcc
      obtain ⟨hti1, hti2⟩ := colIdx_spec tc cols ti hti
      have hkti : ti ≠ k := by
        intro e
        apply hc
        rw [← hk2, ← hti2]
        congr 1
        exact Fin.ext e.symm
      exact getD_modifyAt_ne f ti k r hkti

lemma filter_map_comm {α β : Type} (f : α → β) (p : β → Bool) (l : List α) :
    (l.map f).filter p = (l.filter (fun a => p (f a))).map f := by
  induction l with
  | nil => rfl
  | cons a t ih =>
      by_cases h : p (f a) = true
      · simp [List.filter_cons, h, ih]
      · simp only [Bool.not_eq_true] at h
        simp [List.filter_cons, h, ih]

lemma modifyAt_map_of_nodup (f : Cell → Cell) (c : String) :
    ∀ (es : List String) (g : String → Cell) (j : ℕ), es.Nodup →
      colIdx es c = some j →
      modifyAt f j (es.map g) =
        es.map (fun x => if x = c then f (g x) else g x) := by
  intro es
  induction es with
  | nil => intro g j _ hj; simp [colIdx] at hj
  | cons x t ih =>
      intro g j hnd hj
      by_cases hx : x = c
      · rw [colIdx, if_pos hx] at hj
        cases hj
        have hxt : c ∉ t := by rw [← hx]; exact (List.nodup_cons.mp hnd).1
        simp only [List.map_cons, modifyAt, if_pos hx]
        congr 1
        apply List.map_congr_left
        intro y hy
        have : y ≠ c := fun e => hxt (e ▸ hy)
        simp [this]
      · rw [colIdx, if_neg hx] at hj
        obtain ⟨j', hj', rfl⟩ := Option.map_eq_some'.mp hj
        simp only [List.map_cons, modifyAt, if_neg hx]
        congr 1
        exact ih g j' (List.nodup_cons.mp hnd).2 hj'

lemma cellAt_map_self (es : List String) (g : String → Cell) (c : String)
    (j : ℕ) (hj : colIdx es c = some j) :
    cellAt es (es.map g) c = g c := by
  unfold cellAt
  rw [hj]
  obtain ⟨hlt, hget⟩ := colIdx_spec c es j hj
  show (es.map g).getD j Cell.nan = g c
  rw [getD_eq_get _ _ (by simpa using hlt)]
  rw [show (es.map g).get ⟨j, by simpa using hlt⟩ = g (es.get ⟨j, hlt⟩) from
    List.getElem_map g]
  rw [hget]

lemma cellAt_map_congr (es : List String) (g h : String → Cell)
    (hgh : ∀ c ∈ es, g c = h c) :
    es.map g = es.map h := List.map_congr_left hgh

lemma coerceColNamed_map_rows (es : List String) (hnd : es.Nodup)
    (cn : String) (l : List (List Cell)) (g : List Cell → String → Cell) :
    coerceColNamed ⟨es, l.map (fun r => es.map (g r))⟩ cn =
      ⟨es, l.map (fun r => es.map
        (fun x => if x = cn then toNumericCell (g r x) else g r x))⟩ := by
  unfold coerceColNamed mapColNamed
  cases hj : colIdx es cn with
  | none =>
      have hcn := colIdx_none_not_mem cn es hj
      simp only []
      congr 1
      apply List.map_congr_left
      intro r _
      apply List.map_congr_left
      intro x hx
      have : x ≠ cn := fun e => hcn (e ▸ hx)
      simp [this]
  | some j =>
      simp only []
      congr 1
      rw [List.map_map]
      apply List.map_congr_left
      intro r _
      exact modifyAt_map_of_nodup toNumericCell cn es (g r) j hnd hj

lemma addDiffCol_map_rows (es : List String)
    (l : List (List Cell)) (g : List Cell → String → Cell) :
    addDiffCol ⟨es, l.map (fun r => es.map (g r))⟩ =
      ⟨es ++ ["Difference"], l.map (fun r => es.map (g r) ++
        [if "Hours Taken" ∈ es ∧ "Max. Hours Alloted" ∈ es then
           subCell (g r "Hours Taken") (g r "Max. Hours Alloted")
         else if "Hours Taken" ∈ es then g r "Hours Taken"
         else Cell.nan])⟩ := by
  unfold addDiffCol
  by_cases h1 : "Hours Taken" ∈ es
  · by_cases h2 : "Max. Hours Alloted" ∈ es
    · obtain ⟨j1, hj1⟩ := colIdx_isSome_of_mem "Hours Taken" es h1
      obtain ⟨j2, hj2⟩ := colIdx_isSome_of_mem "Max. Hours Alloted" es h2
      rw [if_pos ⟨h1, h2⟩]
      congr 1
      rw [List.map_map]
      apply List.map_congr_left
      intro r _
      simp only [Function.comp_apply, if_pos (And.intro h1 h2)]
      rw [cellAt_map_self es (g r) _ j1 hj1, cellAt_map_self es (g r) _ j2 hj2]
    · obtain ⟨j1, hj1⟩ := colIdx_isSome_of_mem "Hours Taken" es h1
      rw [if_neg (fun h => h2 h.2), if_pos h1]
      congr 1
      rw [List.map_map]
      apply List.map_congr_left
      intro r _
      simp only [Function.comp_apply, if_neg (fun h => h2 (And.right h)),
        if_pos h1]
      rw [cellAt_map_self es (g r) _ j1 hj1]
  · rw [if_neg (fun h => h1 h.1), if_neg h1]
    congr 1
    rw [List.map_map]
    apply List.map_congr_left
    intro r _
    simp only [Function.comp_apply, if_neg (fun h => h1 (And.left h)),
      if_neg h1]

lemma overlimitShowCols_nodup : overlimitShowCols.Nodup := by decide

lemma examShowCols_nodup : examShowCols.Nodup := by decide

lemma mem_filter_show (shows cols : List String) (c : String)
    (hc : c ∈ shows) :
    (c ∈ shows.filter (fun x => decide (x ∈ cols))) ↔ c ∈ cols := by
  rw [List.mem_filter]
  constructor
  · intro h
    simpa using h.2
  · intro h
    exact ⟨hc, by simpa using h⟩

/-- `overlimitProject` acts row-wise as `overlimitViewRow`. -/
lemma overlimitProject_view (d : DataFrame)
    (hex : overlimitShowCols.filter (fun c => decide (c ∈ d.cols)) ≠ []) :
    overlimitProject d =
      ⟨overlimitShowCols.filter (fun c => decide (c ∈ d.cols)) ++ ["Difference"],
        d.rows.map (overlimitViewRow d.cols)⟩ := by
  unfold overlimitProject
  rw [if_neg hex]
  have hnd : (overlimitShowCols.filter (fun c => decide (c ∈ d.cols))).Nodup :=
    overlimitShowCols_nodup.filter _
  have hsel : selectCols d (overlimitShowCols.filter (fun c => decide (c ∈ d.cols))) =
      ⟨overlimitShowCols.filter (fun c => decide (c ∈ d.cols)),
        d.rows.map (fun r =>
          (overlimitShowCols.filter (fun c => decide (c ∈ d.cols))).map
            (fun c => cellAt d.cols r c))⟩ := rfl
  rw [hsel]
  rw [coerceColNamed_map_rows _ hnd "Hours Taken" d.rows
    (fun r c => cellAt d.cols r c)]
  rw [coerceColNamed_map_rows _ hnd "Max. Hours Alloted" d.rows
    (fun r x => if x = "Hours Taken" then toNumericCell (cellAt d.cols r x)
      else cellAt d.cols r x)]
  have hg : ∀ r : List Cell,
      (overlimitShowCols.filter (fun c => decide (c ∈ d.cols))).map
        (fun x => if x = "Max. Hours Alloted" then
            toNumericCell (if x = "Hours Taken"
              then toNumericCell (cellAt d.cols r x) else cellAt d.cols r x)
          else if x = "Hours Taken" then toNumericCell (cellAt d.cols r x)
          else cellAt d.cols r x) =
      (overlimitShowCols.filter (fun c => decide (c ∈ d.cols))).map
        (overlimitViewCell d.cols r) := by
    intro r
    apply List.map_congr_left
    intro x _
    unfold overlimitViewCell
    by_cases hm : x = "Max. Hours Alloted"
    · have hh : ¬ x = "Hours Taken" := by rw [hm]; decide
      simp [hm, hh]
    · by_cases hh : x = "Hours Taken"
      · simp [hm, hh]
      · simp [hm, hh]
  have hrows : d.rows.map (fun r =>
      (overlimitShowCols.filter (fun c => decide (c ∈ d.cols))).map
        (fun x => if x = "Max. Hours Alloted" then
            toNumericCell (if x = "Hours Taken"
              then toNumericCell (cellAt d.cols r x) else cellAt d.cols r x)
          else if x = "Hours Taken" then toNumericCell (cellAt d.cols r x)
          else cellAt d.cols r x)) =
      d.rows.map (fun r =>
        (overlimitShowCols.filter (fun c => decide (c ∈ d.cols))).map
          (overlimitViewCell d.cols r)) :=
    List.map_congr_left (fun r _ => hg r)
  rw [hrows]
  rw [addDiffCol_map_rows _ d.rows (fun r => overlimitViewCell d.cols r)]
  congr 1
  apply List.map_congr_left
  intro r _
  unfold overlimitViewRow
  congr 1
  have hht := mem_filter_show overlimitShowCols d.cols "Hours Taken" (by decide)
  have hmha := mem_filter_show overlimitShowCols d.cols "Max. Hours Alloted"
    (by decide)
  by_cases h1 : "Hours Taken" ∈ d.cols
  · by_cases h2 : "Max. Hours Alloted" ∈ d.cols
    · rw [if_pos ⟨hht.mpr h1, hmha.mpr h2⟩, if_pos ⟨h1, h2⟩]
      unfold overlimitViewCell
      norm_num
    · rw [if_neg (fun h => h2 (hmha.mp h.2)), if_pos (hht.mpr h1),
        if_neg (fun h => h2 h.2), if_pos h1]
      unfold overlimitViewCell
      norm_num
  · rw [if_neg (fun h => h1 (hht.mp h.1)),
      if_neg (fun h => h1 (hht.mp h)),
      if_neg (fun h => h1 h.1), if_neg h1]

/-- `examProject` acts row-wise as `examViewRow`. -/
lemma examProject_view (d : DataFrame)
    (hex : examShowCols.filter (fun c => decide (c ∈ d.cols)) ≠ []) :
    examProject d =
      ⟨examShowCols.filter (fun c => decide (c ∈ d.cols)),
        d.rows.map (examViewRow d.cols)⟩ := by
  unfold examProject
  rw [if_neg hex]
  rfl

lemma overlimitProject_view_mk (cols : List String) (rows : List (List Cell))
    (hex : overlimitShowCols.filter (fun c => decide (c ∈ cols)) ≠ []) :
    overlimitProject ⟨cols, rows⟩ =
      ⟨overlimitShowCols.filter (fun c => decide (c ∈ cols)) ++ ["Difference"],
        rows.map (overlimitViewRow cols)⟩ :=
  overlimitProject_view ⟨cols, rows⟩ hex

lemma examProject_view_mk (cols : List String) (rows : List (List Cell))
    (hex : examShowCols.filter (fun c => decide (c ∈ cols)) ≠ []) :
    examProject ⟨cols, rows⟩ =
      ⟨examShowCols.filter (fun c => decide (c ∈ cols)),
        rows.map (examViewRow cols)⟩ :=
  examProject_view ⟨cols, rows⟩ hex

lemma cellAt_of_colIdx (cols : List String) (r : List Cell) (c : String)
    (i : ℕ) (h : colIdx cols c = some i) :
    cellAt cols r c = r.getD i Cell.nan := by
  unfold cellAt
  rw [h]

lemma filterByTeacher_rows (df : DataFrame) (tc tid : String) (ti : ℕ)
    (hrect : ∀ r ∈ df.rows, r.length = df.cols.length)
    (hti : colIdx df.cols tc = some ti) :
    filterByTeacher df tc tid =
      ⟨df.cols, (df.rows.filter (fun r =>
        decide (normTid (cellAt df.cols r tc) = Cell.s tid))).map
          (modifyAt normTid ti)⟩ := by
  unfold filterByTeacher
  rw [hti]
  simp only []
  congr 1
  rw [filter_map_comm]
  congr 1
  apply List.filter_congr
  intro r hr
  obtain ⟨hlt, _⟩ := colIdx_spec tc df.cols ti hti
  have hlen : ti < r.length := by rw [hrect r hr]; simpa using hlt
  rw [getD_modifyAt_self normTid ti r hlen]
  rw [cellAt_of_colIdx df.cols r tc ti hti]

lemma findTeacherColOver_pred (cols : List String) (tc : String)
    (h : findTeacherColOver cols = some tc) :
    ((decide (strLower (strTrim tc) = "teacher id") ||
      (strContainsSub (strLower tc) "teacher" &&
        strContainsSub (strLower tc) "id")) = true) ∧ tc ∈ cols := by
  have hp := List.find?_some h
  have hm := List.mem_of_find?_eq_some h
  exact ⟨hp, hm⟩

lemma findTeacherColExact_pred (cols : List String) (tc : String)
    (h : findTeacherColExact cols = some tc) :
    (decide (strLower (strTrim tc) = "teacher id") = true) ∧ tc ∈ cols := by
  have hp := List.find?_some h
  have hm := List.mem_of_find?_eq_some h
  exact ⟨hp, hm⟩

lemma overlimitShowCols_not_teacher (c : String) (hc : c ∈ overlimitShowCols)
    (tc : String)
    (hp : (decide (strLower (strTrim tc) = "teacher id") ||
      (strContainsSub (strLower tc) "teacher" &&
        strContainsSub (strLower tc) "id")) = true) : c ≠ tc := by
  intro e
  rw [← e] at hp
  fin_cases hc <;> exact absurd hp (by decide)

lemma examShowCols_not_teacher (c : String) (hc : c ∈ examShowCols)
    (tc : String)
    (hp : decide (strLower (strTrim tc) = "teacher id") = true) : c ≠ tc := by
  intro e
  rw [← e] at hp
  fin_cases hc <;> exact absurd hp (by decide)

lemma overlimitViewRow_modifyAt (cols : List String) (r : List Cell)
    (tc : String) (ti : ℕ) (hti : colIdx cols tc = some ti)
    (htc : ∀ c ∈ overlimitShowCols, c ≠ tc) :
    overlimitViewRow cols (modifyAt normTid ti r) = overlimitViewRow cols r := by
  unfold overlimitViewRow
  congr 1
  · apply List.map_congr_left
    intro c hcf
    have hc : c ∈ overlimitShowCols := (List.mem_filter.mp hcf).1
    unfold overlimitViewCell
    rw [cellAt_modifyAt_ne cols r normTid ti tc c hti (htc c hc)]
  · rw [cellAt_modifyAt_ne cols r normTid ti tc "Hours Taken" hti
      (htc _ (by decide))]
    rw [cellAt_modifyAt_ne cols r normTid ti tc "Max. Hours Alloted" hti
      (htc _ (by decide))]

lemma examViewRow_modifyAt (cols : List String) (r : List Cell)
    (tc : String) (ti : ℕ) (hti : colIdx cols tc = some ti)
    (htc : ∀ c ∈ examShowCols, c ≠ tc) :
    examViewRow cols (modifyAt normTid ti r) = examViewRow cols r := by
  unfold examViewRow
  apply List.map_congr_left
  intro c hcf
  have hc : c ∈ examShowCols := (List.mem_filter.mp hcf).1
  exact cellAt_modifyAt_ne cols r normTid ti tc c hti (htc c hc)

lemma df_rows_nil_of_empty (df : DataFrame) (hemp : df.emptyB = true)
    (hcols : df.cols ≠ []) : df.rows = [] := by
  unfold DataFrame.emptyB at hemp
  rcases Bool.or_eq_true_iff.mp hemp with h | h
  · exact List.isEmpty_iff.mp h
  · exact absurd (List.isEmpty_iff.mp h) hcols

lemma filter_overlimit_rows_eq (df : DataFrame) (tid tc : String) (ti : ℕ)
    (hrect : ∀ r ∈ df.rows, r.length = df.cols.length)
    (h1 : findTeacherColOver df.cols = some tc)
    (hti : colIdx df.cols tc = some ti)
    (hex : overlimitShowCols.filter (fun c => decide (c ∈ df.cols)) ≠ []) :
    (filter_overlimit_for_teacher (some df) tid).rows =
      (df.rows.filter (fun r =>
        decide (normTid (cellAt df.cols r tc) = Cell.s tid))).map
        (overlimitViewRow df.cols) := by
  have hcols : df.cols ≠ [] := by
    intro h
    rw [h] at h1
    simp [findTeacherColOver] at h1
  have hfun : filter_overlimit_for_teacher (some df) tid =
      (if df.emptyB = true then emptyDF
       else
         match findTeacherColOver df.cols with
         | some tc => overlimitProject (filterByTeacher df tc tid)
         | none => overlimitProject df) := rfl
  rw [hfun]
  by_cases hemp : df.emptyB = true
  · rw [if_pos hemp]
    rw [df_rows_nil_of_empty df hemp hcols]
    rfl
  · rw [if_neg hemp, h1]
    show (overlimitProject (filterByTeacher df tc tid)).rows = _
    rw [filterByTeacher_rows df tc tid ti hrect hti]
    rw [overlimitProject_view_mk df.cols _ hex]
    show (((df.rows.filter _).map (modifyAt normTid ti)).map
      (overlimitViewRow df.cols)) = _
    rw [List.map_map]
    apply List.map_congr_left
    intro r _
    exact overlimitViewRow_modifyAt df.cols r tc ti hti
      (fun c hc => overlimitShowCols_not_teacher c hc tc
        (findTeacherColOver_pred df.cols tc h1).1)

lemma get_exam_rows_eq (df : DataFrame) (tid tc : String) (ti : ℕ)
    (hrect : ∀ r ∈ df.rows, r.length = df.cols.length)
    (h2 : findTeacherColExact df.cols = some tc)
    (hti : colIdx df.cols tc = some ti)
    (hex : examShowCols.filter (fun c => decide (c ∈ df.cols)) ≠ []) :
    (get_exam_data tid (some df)).rows =
      (df.rows.filter (fun r =>
        decide (normTid (cellAt df.cols r tc) = Cell.s tid))).map
        (examViewRow df.cols) := by
  have hcols : df.cols ≠ [] := by
    intro h
    rw [h] at h2
    simp [findTeacherColExact] at h2
  have hfun : get_exam_data tid (some df) =
      (if df.emptyB = true then emptyDF
       else
         match findTeacherColExact df.cols with
         | some tc => examProject (filterByTeacher df tc tid)
         | none => examProject df) := rfl
  rw [hfun]
  by_cases hemp : df.emptyB = true
  · rw [if_pos hemp]
    rw [df_rows_nil_of_empty df hemp hcols]
    rfl
  · rw [if_neg hemp, h2]
    show (examProject (filterByTeacher df tc tid)).rows = _
    rw [filterByTeacher_rows df tc tid ti hrect hti]
    rw [examProject_view_mk df.cols _ hex]
    show (((df.rows.filter _).map (modifyAt normTid ti)).map
      (examViewRow df.cols)) = _
    rw [List.map_map]
    apply List.map_congr_left
    intro r _
    exact examViewRow_modifyAt df.cols r tc ti hti
      (fun c hc => examShowCols_not_teacher c hc tc
        (findTeacherColExact_pred df.cols tc h2).1)

/-! ## C6: teacher filtering is case-insensitive, trimmed and exact -/

/-- C6 (amended): when the frame carries a teacher-id column **and at
least one display column**, `filter_overlimit_for_teacher` and
`get_exam_data` return exactly the rows whose teacher-id value, after
stripping and lowercasing, equals the supplied normalized id — each
output row the display-column view of its matching input row, and no row
with a differing normalized id appears; when no display column is
present the functions instead return an empty frame, dropping even the
matching rows (the original claim fails there). -/
theorem teacher_filter_case_insensitive_exact (df : DataFrame) (tid : String)
    (tc1 tc2 : String) (ti1 ti2 : ℕ)
    (hrect : ∀ r ∈ df.rows, r.length = df.cols.length)
    (h1 : findTeacherColOver df.cols = some tc1)
    (hti1 : colIdx df.cols tc1 = some ti1)
    (hex1 : overlimitShowCols.filter (fun c => decide (c ∈ df.cols)) ≠ [])
    (h2 : findTeacherColExact df.cols = some tc2)
    (hti2 : colIdx df.cols tc2 = some ti2)
    (hex2 : examShowCols.filter (fun c => decide (c ∈ df.cols)) ≠ []) :
    (filter_overlimit_for_teacher (some df) tid).rows =
      (df.rows.filter (fun r =>
        decide (normTid (cellAt df.cols r tc1) = Cell.s tid))).map
        (overlimitViewRow df.cols) ∧
    (get_exam_data tid (some df)).rows =
      (df.rows.filter (fun r =>
        decide (normTid (cellAt df.cols r tc2) = Cell.s tid))).map
        (examViewRow df.cols) :=
  ⟨filter_overlimit_rows_eq df tid tc1 ti1 hrect h1 hti1 hex1,
    get_exam_rows_eq df tid tc2 ti2 hrect h2 hti2 hex2⟩


/-- C6 counterexample: on a frame with a teacher-id column but no
display column, the matching row is **not** returned —
`filter_overlimit_for_teacher` yields an empty frame even though the
row's normalized teacher id equals the supplied one.  The same happens
with `get_exam_data`. -/
theorem teacher_filter_drops_matching_row_cex :
    (filter_overlimit_for_teacher (some dfTidOnly) "t1").rows = [] ∧
    (get_exam_data "t1" (some dfTidOnly)).rows = [] ∧
    normTid (cellAt dfTidOnly.cols (dfTidOnly.rows.getD 0 []) "Teacher ID") =
      Cell.s "t1" := by
  refine ⟨?_, ?_, ?_⟩ <;> decide


/-- C6 witness: the filtering theorem applied to the concrete frame
`dfOver` with normalized teacher id `t1`. -/
theorem teacher_filter_case_insensitive_exact_witness :
    (filter_overlimit_for_teacher (some dfOver) "t1").rows =
      (dfOver.rows.filter (fun r =>
        decide (normTid (cellAt dfOver.cols r "Teacher ID") = Cell.s "t1"))).map
        (overlimitViewRow dfOver.cols) ∧
    (get_exam_data "t1" (some dfOver)).rows =
      (dfOver.rows.filter (fun r =>
        decide (normTid (cellAt dfOver.cols r "Teacher ID") = Cell.s "t1"))).map
        (examViewRow dfOver.cols) :=
  teacher_filter_case_insensitive_exact dfOver "t1" "Teacher ID" "Teacher ID"
    0 0 (by decide) (by decide) (by decide) (by decide) (by decide) (by decide)
    (by decide)

/-! ## C10: the `Difference` column -/

lemma overlimit_rows_views (df : DataFrame) (tid : String)
    (hrect : ∀ r ∈ df.rows, r.length = df.cols.length)
    (hex : overlimitShowCols.filter (fun c => decide (c ∈ df.cols)) ≠ []) :
    (df.emptyB = false →
      (filter_overlimit_for_teacher (some df) tid).cols =
        overlimitShowCols.filter (fun c => decide (c ∈ df.cols)) ++
          ["Difference"]) ∧
    ∀ row ∈ (filter_overlimit_for_teacher (some df) tid).rows,
      ∃ r ∈ df.rows, row = overlimitViewRow df.cols r := by
  have hfun : filter_overlimit_for_teacher (some df) tid =
      (if df.emptyB = true then emptyDF
       else
         match findTeacherColOver df.cols with
         | some tc => overlimitProject (filterByTeacher df tc tid)
         | none => overlimitProject df) := rfl
  rw [hfun]
  by_cases hemp : df.emptyB = true
  · rw [if_pos hemp]
    exact ⟨fun h => absurd hemp (by rw [h]; decide), fun row hrow => by
      simp [emptyDF] at hrow⟩
  · rw [if_neg hemp]
    cases htc : findTeacherColOver df.cols with
    | none =>
        show (df.emptyB = false → (overlimitProject df).cols = _) ∧
          ∀ row ∈ (overlimitProject df).rows, _
        rw [overlimitProject_view df hex]
        refine ⟨fun _ => rfl, ?_⟩
        intro row hrow
        obtain ⟨r, hr, hrr⟩ := List.mem_map.mp hrow
        exact ⟨r, hr, hrr.symm⟩
    | some tc =>
        obtain ⟨ti, hti⟩ := colIdx_isSome_of_mem tc df.cols
          (findTeacherColOver_pred df.cols tc htc).2
        show (df.emptyB = false →
            (overlimitProject (filterByTeacher df tc tid)).cols = _) ∧
          ∀ row ∈ (overlimitProject (filterByTeacher df tc tid)).rows, _
        rw [filterByTeacher_rows df tc tid ti hrect hti]
        rw [overlimitProject_view_mk df.cols _ hex]
        refine ⟨fun _ => rfl, ?_⟩
        intro row hrow
        simp only [List.map_map] at hrow
        obtain ⟨r, hrmem, hrr⟩ := List.mem_map.mp hrow
        have hr : r ∈ df.rows := List.mem_of_mem_filter hrmem
        refine ⟨r, hr, ?_⟩
        rw [← hrr]
        show overlimitViewRow df.cols (modifyAt normTid ti r) =
          overlimitViewRow df.cols r
        exact overlimitViewRow_modifyAt df.cols r tc ti hti
          (fun c hc => overlimitShowCols_not_teacher c hc tc
            (findTeacherColOver_pred df.cols tc htc).1)

lemma colIdx_append_left (c : String) :
    ∀ (l1 l2 : List String) (j : ℕ),
      colIdx l1 c = some j → colIdx (l1 ++ l2) c = some j := by
  intro l1
  induction l1 with
  | nil => intro l2 j h; simp [colIdx] at h
  | cons x t ih =>
      intro l2 j h
      by_cases hx : x = c
      · rw [colIdx, if_pos hx] at h
        cases h
        rw [List.cons_append, colIdx, if_pos hx]
      · rw [colIdx, if_neg hx] at h
        obtain ⟨j', hj', rfl⟩ := Option.map_eq_some'.mp h
        rw [List.cons_append, colIdx, if_neg hx, ih l2 j' hj']
        rfl

lemma colIdx_append_sep (c : String) :
    ∀ es : List String, c ∉ es → colIdx (es ++ [c]) c = some es.length := by
  intro es
  induction es with
  | nil => intro _; simp [colIdx]
  | cons x t ih =>
      intro hc
      have hx : x ≠ c := fun e => hc (by rw [e]; exact List.mem_cons_self _ _)
      have hct : c ∉ t := fun h => hc (List.mem_cons_of_mem _ h)
      rw [List.cons_append, colIdx, if_neg hx, ih hct]
      rfl

lemma getD_append_left_lt {α : Type} :
    ∀ (l l' : List α) (n : ℕ) (d : α), n < l.length →
      (l ++ l').getD n d = l.getD n d := by
  intro l
  induction l with
  | nil => intro l' n d h; simp at h
  | cons a t ih =>
      intro l' n d h
      cases n with
      | zero => rfl
      | succ m => simpa using ih l' m d (by simpa using h)

lemma getD_snoc_at_length {α : Type} :
    ∀ (l : List α) (x d : α), (l ++ [x]).getD l.length d = x := by
  intro l
  induction l with
  | nil => intro x d; rfl
  | cons a t ih => intro x d; simp

/-- In the overlimit output row for input row `r`, the `Difference` cell
(looked up by column name) is exactly the three-way gap expression of
`r`'s own coerced hour cells. -/
lemma overlimitViewRow_diff_cell (cols : List String) (r : List Cell) :
    cellAt
      (overlimitShowCols.filter (fun c => decide (c ∈ cols)) ++ ["Difference"])
      (overlimitViewRow cols r) "Difference" =
      (if "Hours Taken" ∈ cols ∧ "Max. Hours Alloted" ∈ cols then
         subCell (toNumericCell (cellAt cols r "Hours Taken"))
           (toNumericCell (cellAt cols r "Max. Hours Alloted"))
       else if "Hours Taken" ∈ cols then
         toNumericCell (cellAt cols r "Hours Taken")
       else Cell.nan) := by
  have hnd : "Difference" ∉
      overlimitShowCols.filter (fun c => decide (c ∈ cols)) := by
    intro h
    have hmem := (List.mem_filter.mp h).1
    revert hmem
    decide
  rw [cellAt_of_colIdx _ _ _ _ (colIdx_append_sep "Difference" _ hnd)]
  unfold overlimitViewRow
  rw [show (overlimitShowCols.filter (fun c => decide (c ∈ cols))).length =
      ((overlimitShowCols.filter (fun c => decide (c ∈ cols))).map
        (overlimitViewCell cols r)).length from (List.length_map _ _).symm]
  exact getD_snoc_at_length _ _ _

/-- In the overlimit output row for input row `r`, every display-column
cell (looked up by column name) is the view of `r`'s own cell under that
column. -/
lemma overlimitViewRow_show_cell (cols : List String) (r : List Cell)
    (c : String)
    (hc : c ∈ overlimitShowCols.filter (fun x => decide (x ∈ cols))) :
    cellAt
      (overlimitShowCols.filter (fun x => decide (x ∈ cols)) ++ ["Difference"])
      (overlimitViewRow cols r) c = overlimitViewCell cols r c := by
  obtain ⟨j, hj⟩ := colIdx_isSome_of_mem c _ hc
  rw [cellAt_of_colIdx _ _ _ _ (colIdx_append_left c _ _ j hj)]
  obtain ⟨hlt, hget⟩ := colIdx_spec c _ j hj
  unfold overlimitViewRow
  rw [getD_append_left_lt _ _ j _ (by simpa using hlt)]
  rw [getD_eq_get _ j (by simpa using hlt)]
  rw [show ((overlimitShowCols.filter (fun x => decide (x ∈ cols))).map
      (overlimitViewCell cols r)).get ⟨j, by simpa using hlt⟩ =
      overlimitViewCell cols r
        ((overlimitShowCols.filter (fun x => decide (x ∈ cols))).get
          ⟨j, hlt⟩) from List.getElem_map _]
  rw [hget]

/-- C10: the overlimit output always carries a `Difference` column as
its last column (on non-empty input with a display column present),
every output row is the display view of one input row, and row by row
the row's own `Difference` cell equals that same row's coerced
`Hours Taken` minus its coerced `Max. Hours Alloted` when both columns
are present in the input, the row's own coerced `Hours Taken` when only
that column is present, and NaN otherwise. -/
theorem overlimit_difference_defined (df : DataFrame) (tid : String)
    (hrect : ∀ r ∈ df.rows, r.length = df.cols.length)
    (hemp : df.emptyB = false) :
    (("Hours Taken" ∈ df.cols ∧ "Max. Hours Alloted" ∈ df.cols) →
      (filter_overlimit_for_teacher (some df) tid).cols.getLast? =
        some "Difference" ∧
      ∀ row ∈ (filter_overlimit_for_teacher (some df) tid).rows,
        (∃ r ∈ df.rows, row = overlimitViewRow df.cols r) ∧
        cellAt (filter_overlimit_for_teacher (some df) tid).cols row
            "Difference" =
          subCell
            (cellAt (filter_overlimit_for_teacher (some df) tid).cols row
              "Hours Taken")
            (cellAt (filter_overlimit_for_teacher (some df) tid).cols row
              "Max. Hours Alloted")) ∧
    (("Hours Taken" ∈ df.cols ∧ "Max. Hours Alloted" ∉ df.cols) →
      (filter_overlimit_for_teacher (some df) tid).cols.getLast? =
        some "Difference" ∧
      ∀ row ∈ (filter_overlimit_for_teacher (some df) tid).rows,
        (∃ r ∈ df.rows, row = overlimitViewRow df.cols r) ∧
        cellAt (filter_overlimit_for_teacher (some df) tid).cols row
            "Difference" =
          cellAt (filter_overlimit_for_teacher (some df) tid).cols row
            "Hours Taken") ∧
    (("Hours Taken" ∉ df.cols ∧
        overlimitShowCols.filter (fun c => decide (c ∈ df.cols)) ≠ []) →
      (filter_overlimit_for_teacher (some df) tid).cols.getLast? =
        some "Difference" ∧
      ∀ row ∈ (filter_overlimit_for_teacher (some df) tid).rows,
        cellAt (filter_overlimit_for_teacher (some df) tid).cols row
          "Difference" = Cell.nan) := by
  refine ⟨?_, ?_, ?_⟩
  · rintro ⟨h1, h2⟩
    have hex : overlimitShowCols.filter (fun c => decide (c ∈ df.cols)) ≠ [] :=
      List.ne_nil_of_mem
        ((mem_filter_show overlimitShowCols df.cols "Hours Taken"
          (by decide)).mpr h1)
    obtain ⟨hcols, hrows⟩ := overlimit_rows_views df tid hrect hex
    have hcolseq := hcols hemp
    refine ⟨by rw [hcolseq]; exact List.getLast?_concat _, ?_⟩
    intro row hrow
    obtain ⟨r, hr, hview⟩ := hrows row hrow
    refine ⟨⟨r, hr, hview⟩, ?_⟩
    rw [hcolseq, hview]
    rw [overlimitViewRow_diff_cell df.cols r]
    rw [overlimitViewRow_show_cell df.cols r "Hours Taken"
      ((mem_filter_show overlimitShowCols df.cols "Hours Taken"
        (by decide)).mpr h1)]
    rw [overlimitViewRow_show_cell df.cols r "Max. Hours Alloted"
      ((mem_filter_show overlimitShowCols df.cols "Max. Hours Alloted"
        (by decide)).mpr h2)]
    rw [if_pos ⟨h1, h2⟩]
    unfold overlimitViewCell
    rw [if_pos (Or.inl rfl), if_pos (Or.inr rfl)]
  · rintro ⟨h1, h2⟩
    have hex : overlimitShowCols.filter (fun c => decide (c ∈ df.cols)) ≠ [] :=
      List.ne_nil_of_mem
        ((mem_filter_show overlimitShowCols df.cols "Hours Taken"
          (by decide)).mpr h1)
    obtain ⟨hcols, hrows⟩ := overlimit_rows_views df tid hrect hex
    have hcolseq := hcols hemp
    refine ⟨by rw [hcolseq]; exact List.getLast?_concat _, ?_⟩
    intro row hrow
    obtain ⟨r, hr, hview⟩ := hrows row hrow
    refine ⟨⟨r, hr, hview⟩, ?_⟩
    rw [hcolseq, hview]
    rw [overlimitViewRow_diff_cell df.cols r]
    rw [overlimitViewRow_show_cell df.cols r "Hours Taken"
      ((mem_filter_show overlimitShowCols df.cols "Hours Taken"
        (by decide)).mpr h1)]
    rw [if_neg (fun h => h2 h.2), if_pos h1]
    unfold overlimitViewCell
    rw [if_pos (Or.inl rfl)]
  · rintro ⟨h1, hex⟩
    obtain ⟨hcols, hrows⟩ := overlimit_rows_views df tid hrect hex
    have hcolseq := hcols hemp
    refine ⟨by rw [hcolseq]; exact List.getLast?_concat _, ?_⟩
    intro row hrow
    obtain ⟨r, _, hview⟩ := hrows row hrow
    rw [hcolseq, hview]
    rw [overlimitViewRow_diff_cell df.cols r]
    rw [if_neg (fun h => h1 h.1), if_neg h1]

/-- C10 witness: the `Difference` theorem applied to the concrete frame
`dfOver`, whose input carries both hour columns. -/
theorem overlimit_difference_defined_witness :
    (filter_overlimit_for_teacher (some dfOver) "t1").cols.getLast? =
      some "Difference" ∧
    ∀ row ∈ (filter_overlimit_for_teacher (some dfOver) "t1").rows,
      (∃ r ∈ dfOver.rows, row = overlimitViewRow dfOver.cols r) ∧
      cellAt (filter_overlimit_for_teacher (some dfOver) "t1").cols row
          "Difference" =
        subCell
          (cellAt (filter_overlimit_for_teacher (some dfOver) "t1").cols row
            "Hours Taken")
          (cellAt (filter_overlimit_for_teacher (some dfOver) "t1").cols row
            "Max. Hours Alloted") :=
  (overlimit_difference_defined dfOver "t1" (by decide) (by decide)).1
    ⟨by decide, by decide⟩

end DailyData
